import Mathlib

/-!
Verification of the `stock_data_access` library (a read-only data-access
facade over a document store) against its specification.

The embedding is shallow: each Python method is translated into a Lean
function over explicit store state.  A document collection is a `List` of
records in store (insertion) order; a Mongo `find` with a filter becomes
`List.filter`, `find_one` becomes `List.find?` (first match in store
order), `sort(field, 1)`/`sort(field, -1)` become stable sorts by the
field (`List.insertionSort` is stable, matching both the mock store and
Python `sorted`), `limit(n)` becomes `List.take n` for `n > 0` (a Mongo
limit of `0` means "no limit"), and a Python dict under insertion-order
semantics becomes an association list with in-place overwrite.

Python strings are modelled as `List Char` (`Str`), whose Mathlib order
is exactly the lexicographic order Mongo uses on the fixed-width digit
date strings of this repository.  Numeric document values are modelled as
`ℚ`; a value that may be the stored null is an `Option`.
-/

/-- Python strings, modelled as character lists with lexicographic order. -/
abbrev Str := List Char

/-- Shorthand turning a Lean string literal into the `Str` model. -/
def str (s : String) : Str := s.data

/-- Stable sort, ascending by the key `k` (models Python `sorted` /
Mongo `.sort(field, 1)` on a list-backed store). -/
def sortAscOn {α β : Type} [LinearOrder β] (k : α → β) (l : List α) : List α :=
  l.insertionSort (fun a b => k a ≤ k b)

/-- Stable sort, descending by the key `k` (models Python
`sorted(key, reverse=True)` / Mongo `.sort(field, -1)`): ties keep their
original relative order. -/
def sortDescOn {α β : Type} [LinearOrder β] (k : α → β) (l : List α) : List α :=
  l.insertionSort (fun a b => k b ≤ k a)

/-- Python dict assignment `m[k] = v`: overwrite in place when the key is
present, append otherwise (insertion-order dict semantics). -/
def dictSet {α : Type} (m : List (Str × α)) (kv : Str × α) : List (Str × α) :=
  match m with
  | [] => [kv]
  | (k, v) :: rest => if k = kv.1 then (k, kv.2) :: rest else (k, v) :: dictSet rest kv

/-- Fold a sequence of dict assignments into a dict. -/
def dictSetAll {α : Type} (m : List (Str × α)) (l : List (Str × α)) : List (Str × α) :=
  l.foldl dictSet m

/-- Dict lookup (`m.get(k)` on an insertion-order dict). -/
def dictGet {α : Type} (m : List (Str × α)) (k : Str) : Option α :=
  match m with
  | [] => none
  | (k0, v) :: rest => if k0 = k then some v else dictGet rest k

/-- A Mongo cursor `limit(p)`: pymongo and the mock store treat a limit
of `0` as no limit at all. -/
def mongoLimit {α : Type} (p : Nat) (l : List α) : List α :=
  if p = 0 then l else l.take p

/- ----------------------------------------------------------------------
src/stock_data_access/loader.py : StockPriceDataAccess
---------------------------------------------------------------------- -/

/-- A document of the price collection (`volume_price` / `minute_bars`).
Field names follow the source (`open` is a Lean keyword, hence `open_`).
`close` is an `Option` because a stored document may carry a null there;
the claims never rely on the other OHLCV columns, which only pass through
the projection unchanged. -/
structure Bar where
  symbol : Str
  trade_date : Str
  open_ : ℚ := 0
  high : ℚ := 0
  low : ℚ := 0
  close : Option ℚ := none
  volume : ℚ := 0
deriving DecidableEq, Repr

/-- The Mongo filter `{"symbol": {"$in": syms}, "trade_date": date}` used
by both passes of `fetch_latest_close` (loader.py lines 108-115 and
131-138). -/
def matchesSymbolDate (syms : List Str) (date_str : Str) (b : Bar) : Bool :=
  decide (b.symbol ∈ syms) && decide (b.trade_date = date_str)

/-- The suffix stripping `s.split(".")[0]` of loader.py line 129: the
part of the symbol before the first dot. -/
def stripSuffix (s : Str) : Str := s.takeWhile (· ≠ '.')

/-- Embedding of `StockPriceDataAccess.fetch_latest_close`
(loader.py lines 106-144).  First pass queries the given symbols exactly;
for input symbols that produced no result entry, a second pass queries
the suffix-stripped forms (`s.split(".")[0]`, i.e. the part before the
first dot) and merges into the same result dict.  Each matching document
writes `result[doc.symbol] = doc.close`, so entries are keyed by the
symbol stored in the matched document. -/
def fetch_latest_close (price_coll : List Bar) (symbols : List Str) (date_str : Str) :
    List (Str × Option ℚ) :=
  let docs := price_coll.filter (matchesSymbolDate symbols date_str)
  let result := dictSetAll [] (docs.map (fun b => (b.symbol, b.close)))
  let found_symbols := result.map Prod.fst
  let symbols_not_found := symbols.filter (fun s => decide (s ∉ found_symbols))
  let symbols_stripped :=
    (symbols_not_found.filter (fun s => decide ('.' ∈ s))).map stripSuffix
      ++ symbols_not_found.filter (fun s => decide ('.' ∉ s))
  let docs2 := price_coll.filter (matchesSymbolDate symbols_stripped date_str)
  dictSetAll result (docs2.map (fun b => (b.symbol, b.close)))

/-- Keys of `l` not yet in `seen`, in first-appearance order (helper of
`firstOccur`). -/
def firstOccurAux {α : Type} [DecidableEq α] (seen : List α) : List α → List α
  | [] => []
  | x :: xs => if x ∈ seen then firstOccurAux seen xs
    else x :: firstOccurAux (x :: seen) xs

/-- First-appearance deduplication, preserving the order in which keys
first occur (the iteration order of a Python insertion-order dict whose
keys were inserted in list order). -/
def firstOccur {α : Type} [DecidableEq α] (l : List α) : List α :=
  firstOccurAux [] l

/-- The Mongo range filter of `fetch_batch` (loader.py lines 63-66):
`{"symbol": {"$in": syms}, "trade_date": {"$gte": start, "$lte": end}}`. -/
def matchesBatchQuery (syms : List Str) (start_date end_date : Str) (b : Bar) : Bool :=
  decide (b.symbol ∈ syms) && decide (start_date ≤ b.trade_date)
    && decide (b.trade_date ≤ end_date)

/-- Embedding of `StockPriceDataAccess.fetch_batch` (loader.py lines
54-95).  The compound store sort `[("symbol", 1), ("trade_date", 1)]` is
realised as a stable sort by the secondary key followed by a stable sort
by the primary key.  Documents are then grouped by symbol in first
appearance order (Python dict `setdefault`/`append`), and each group
becomes a frame indexed and sorted by its parsed date (`sort_index`,
a stable sort by `trade_date`).  The projection and the `pct_chg` column
probe select columns only and do not affect rows, so they are not part of
the row-level model. -/
def fetch_batch (price_coll : List Bar) (symbols : List Str) (start_date end_date : Str) :
    List (Str × List Bar) :=
  if symbols = [] then []
  else
    let docs := sortAscOn (fun b => b.symbol)
      (sortAscOn (fun b => b.trade_date)
        (price_coll.filter (matchesBatchQuery symbols start_date end_date)))
    let syms := firstOccur (docs.map (fun b => b.symbol))
    syms.map (fun sym =>
      (sym, sortAscOn (fun b => b.trade_date) (docs.filter (fun b => decide (b.symbol = sym)))))

/-- A document of the `stock_info` collection. -/
structure InfoDoc where
  symbol : Str
  name : Str := []
deriving DecidableEq, Repr

/-- The state a `StockPriceDataAccess` object carries across calls: the
info collection it reads and the `_sym_ts_cache` mapping. -/
structure PriceAccessState where
  info_coll : List InfoDoc
  sym_ts_cache : List (Str × Str)
deriving DecidableEq, Repr

/-- Result of one `resolve_ts_code` call: the returned value, the state
after the call, and how many queries the call issued against the info
collection (for the idempotence claim). -/
structure ResolveResult where
  value : Option Str
  state : PriceAccessState
  queries : Nat
deriving DecidableEq, Repr

/-- Embedding of `StockPriceDataAccess.resolve_ts_code` (loader.py lines
24-32): cache hit returns the cached value with no store query; on a
miss, `find_one({"symbol": symbol})` is issued, and the resolved symbol
is cached only when it is truthy (a non-empty string, the Python
`if resolved_symbol:` guard). -/
def resolve_ts_code (a : PriceAccessState) (symbol : Str) : ResolveResult :=
  match dictGet a.sym_ts_cache symbol with
  | some v => ⟨some v, a, 0⟩
  | none =>
    match a.info_coll.find? (fun d => decide (d.symbol = symbol)) with
    | none => ⟨none, a, 1⟩
    | some d =>
      let resolved_symbol := d.symbol
      if resolved_symbol ≠ [] then
        ⟨some resolved_symbol,
          { a with sym_ts_cache := dictSet a.sym_ts_cache (symbol, resolved_symbol) }, 1⟩
      else ⟨some resolved_symbol, a, 1⟩

/- ----------------------------------------------------------------------
src/stock_data_access/score.py : ScoreDataAccess
---------------------------------------------------------------------- -/

/-- A document of the `stock_scores` collection.  Scalar score fields and
the nested `composite_score` sub-document are flattened into one
association list keyed by the (dotted) field path, which is how the Mongo
queries of score.py address them. -/
structure ScoreRec where
  symbol : Str
  score_date : Str
  fields : List (Str × ℚ) := []
deriving DecidableEq, Repr

/-- Field access by dotted path on a score document. -/
def fieldGet (r : ScoreRec) (k : Str) : Option ℚ :=
  dictGet r.fields k

/-- The `_composite_styles` set (score.py lines 9-18). -/
def composite_styles : List Str :=
  [str "balanced", str "aggressive", str "conservative", str "defensive",
   str "value_oriented", str "trading_oriented", str "growth_oriented",
   str "cycle_oriented"]

/-- Embedding of `ScoreDataAccess._resolve_nearest_score_date` (score.py
lines 20-31): exact match first; else the maximum `score_date ≤` the
request, obtained as `sort("score_date", -1).limit(1)` over the `$lte`
filter; else the global maximum; else the request unchanged. -/
def resolve_nearest_score_date (scores_coll : List ScoreRec) (score_date : Str) : Str :=
  if (scores_coll.find? (fun r => decide (r.score_date = score_date))).isSome then
    score_date
  else
    let prev_list := (sortDescOn (fun r => r.score_date)
      (scores_coll.filter (fun r => decide (r.score_date ≤ score_date)))).take 1
    match prev_list with
    | r :: _ => r.score_date
    | [] =>
      let latest_list := (sortDescOn (fun r => r.score_date) scores_coll).take 1
      match latest_list with
      | r :: _ => r.score_date
      | [] => score_date

/-- The sort field chosen by `select_top_symbols` / `select_top_with_date`
(score.py lines 36-41 and 47-52): the dotted composite path for a known
composite style, else the `<dimension>_score` scalar field. -/
def score_sort_field (dimension : Str) : Str :=
  if dimension ∈ composite_styles then str "composite_score." ++ dimension
  else dimension ++ str "_score"

/-- The shared query-sort-limit core of `select_top_symbols` and
`select_top_with_date` (score.py lines 36-43 and 47-54, identical in
both): documents on the used date where the sort field exists, sorted
descending by that field, passed through the store's `limit(top_n)` —
which at `top_n = 0` is no limit at all. -/
def top_score_docs (scores_coll : List ScoreRec) (used_date dimension : Str) (top_n : Nat) :
    List ScoreRec :=
  let sort_field := score_sort_field dimension
  let eligible := scores_coll.filter
    (fun r => decide (r.score_date = used_date) && (fieldGet r sort_field).isSome)
  mongoLimit top_n (sortDescOn (fun r => (fieldGet r sort_field).getD 0) eligible)

/-- Embedding of `ScoreDataAccess.select_top_symbols` (score.py lines
33-43). -/
def select_top_symbols (scores_coll : List ScoreRec) (score_date dimension : Str)
    (top_n : Nat) (auto_resolve_date : Bool) : List Str :=
  let used_date := if auto_resolve_date then resolve_nearest_score_date scores_coll score_date
    else score_date
  (top_score_docs scores_coll used_date dimension top_n).map (fun r => r.symbol)

/-- Embedding of `ScoreDataAccess.select_top_with_date` (score.py lines
45-54). -/
def select_top_with_date (scores_coll : List ScoreRec) (score_date dimension : Str)
    (top_n : Nat) (auto_resolve_date : Bool) : Str × List Str :=
  let used_date := if auto_resolve_date then resolve_nearest_score_date scores_coll score_date
    else score_date
  (used_date, (top_score_docs scores_coll used_date dimension top_n).map (fun r => r.symbol))

/- ----------------------------------------------------------------------
src/stock_data_access/index.py : IndexDataAccess
---------------------------------------------------------------------- -/

/-- A document of the `index_prices` collection.  As with `Bar`, `close`
is optional to model a stored null. -/
structure IndexBar where
  ts_code : Str
  trade_date : Str
  close : Option ℚ := none
deriving DecidableEq, Repr

/-- The raw date-close series `load_normalized` rebases (index.py lines
11-26): the index-collection range query sorted ascending by date; when
it is empty, the fallback range query against the stock price collection
under the suffix-stripped code (`ts_code[:-3]`). -/
def index_source_docs (index_coll : List IndexBar) (stock_coll : List Bar)
    (ts_code start_date end_date : Str) : List (Str × Option ℚ) :=
  let docs := (sortAscOn (fun b => b.trade_date)
    (index_coll.filter (fun b => decide (b.ts_code = ts_code)
      && decide (start_date ≤ b.trade_date) && decide (b.trade_date ≤ end_date)))).map
    (fun b => (b.trade_date, b.close))
  if docs = [] then
    let symbol := ts_code.take (ts_code.length - 3)
    (sortAscOn (fun b => b.trade_date)
      (stock_coll.filter (fun b => decide (b.symbol = symbol)
        && decide (start_date ≤ b.trade_date) && decide (b.trade_date ≤ end_date)))).map
      (fun b => (b.trade_date, b.close))
  else docs

/-- Embedding of `IndexDataAccess.load_normalized` (index.py lines
10-31), with the pandas dtype semantics of the `base in (None, 0)`
guard.  A `none` close models a stored null (the data model has the
close field present on every document).  When every close is null the
frame column keeps object dtype, the first value IS `None`, the guard
catches it and the empty series is returned — as it also is for an
empty fetch or a zero first value.  When the first close is null but a
later one is numeric, pandas coerces the column to float and the null
becomes NaN; `NaN in (None, 0)` is false, so the source divides by NaN
and returns a NON-empty series whose every entry is missing.  With a
numeric nonzero first value the series is rebased by it; a null further
down stays a missing value under division, as NaN does. -/
def load_normalized (index_coll : List IndexBar) (stock_coll : List Bar)
    (ts_code start_date end_date : Str) : List (Str × Option ℚ) :=
  match index_source_docs index_coll stock_coll ts_code start_date end_date with
  | [] => []
  | (d0, c0) :: rest =>
    if ((d0, c0) :: rest).all (fun p => p.2.isNone) then []
    else
      match c0 with
      | none => ((d0, c0) :: rest).map (fun p => (p.1, (none : Option ℚ)))
      | some base =>
        if base = 0 then []
        else ((d0, c0) :: rest).map (fun p => (p.1, p.2.map (fun c => c / base)))

/- ----------------------------------------------------------------------
src/stock_data_access/financial.py : FinancialDataAccess
---------------------------------------------------------------------- -/

/-- A fundamental-statement document: an association list from field name
to string value (the sort keys of this collection are period-marker date
strings). -/
abbrev FinDoc := List (Str × Str)

/-- The local sort key of `fetch_docs` (financial.py line 28):
`d.get(sort_field) or ""`, so a missing field and an empty value both
sort as the empty string. -/
def fin_sort_key (sort_field : Str) (d : FinDoc) : Str :=
  (dictGet d sort_field).getD []

/-- Embedding of `FinancialDataAccess.fetch_docs` (financial.py lines
14-31).  `matched_docs` is `list(coll.find(query))` in store order;
`store_side_ok` tells whether the store-side `sort(sort_field, -1)
.limit(int(periods))` path is taken (the cursor supports sort and limit
and raises nothing) or the plain `list(raw)` fallback is used.  In both
cases the documents are then sorted locally, descending by
`fin_sort_key`, and finally truncated to `periods` unless `periods` is
None or 0 (both falsy in the Python `if periods` guard). -/
def fetch_docs (matched_docs : List FinDoc) (periods : Option Nat) (sort_field : Str)
    (store_side_ok : Bool) : List FinDoc :=
  let docs :=
    if store_side_ok then
      match periods with
      | some p => mongoLimit p (sortDescOn (fin_sort_key sort_field) matched_docs)
      | none => matched_docs
    else matched_docs
  let docs := sortDescOn (fin_sort_key sort_field) docs
  match periods with
  | some p => if p ≠ 0 then docs.take p else docs
  | none => docs

/- ----------------------------------------------------------------------
src/stock_data_access/user.py : UserDataAccess
---------------------------------------------------------------------- -/

/-- A user document: field name to string value; a missing entry models
an absent field. -/
abbrev UserDoc := List (Str × Str)

/-- Python `a or b` on optional strings: `a` when it is truthy (present
and non-empty), else `b` unchanged. -/
def py_or (a b : Option Str) : Option Str :=
  match a with
  | some v => if v ≠ [] then some v else b
  | none => b

/-- Embedding of `UserDataAccess.extract_email` (user.py lines 17-18):
`user_doc.get("email") or user_doc.get("mail") or
user_doc.get("contact_email")`. -/
def extract_email (user_doc : UserDoc) : Option Str :=
  py_or (dictGet user_doc (str "email"))
    (py_or (dictGet user_doc (str "mail")) (dictGet user_doc (str "contact_email")))

/- ----------------------------------------------------------------------
src/stock_data_access/calendar.py
---------------------------------------------------------------------- -/

/-- The outcome of one use of the external tushare calendar provider for
a given range: the provider module or token may be missing, the call may
raise, the returned frame may be missing or empty, or it yields the list
of open calendar dates in range. -/
inductive TushareOutcome where
  | unavailable : TushareOutcome
  | error : TushareOutcome
  | emptyFrame : TushareOutcome
  | ok : List Str → TushareOutcome
deriving DecidableEq, Repr

/-- Embedding of `_tushare_trading_days` (calendar.py lines 14-24): a
missing module or token, a raised provider error and a missing or empty
frame all become the empty list; a successful call returns the sorted
`cal_date` column. -/
def tushare_trading_days (o : TushareOutcome) : List Str :=
  match o with
  | .unavailable => []
  | .error => []
  | .emptyFrame => []
  | .ok days => sortAscOn id days

/-- Embedding of `_mongo_trading_days` (calendar.py lines 27-37): the
distinct `trade_date` values of the price collection within range,
sorted; when the store lacks the distinct capability (`distinct_ok` is
false), the scan-and-dedupe fallback additionally drops falsy (empty)
dates through the `if doc.get("trade_date")` guard. -/
def mongo_trading_days (price_coll : List Bar) (distinct_ok : Bool)
    (start_date end_date : Str) : List Str :=
  let in_range := (price_coll.filter (fun b => decide (start_date ≤ b.trade_date)
    && decide (b.trade_date ≤ end_date))).map (fun b => b.trade_date)
  if distinct_ok then sortAscOn id (firstOccur in_range)
  else sortAscOn id (firstOccur (in_range.filter (fun d => decide (d ≠ []))))

/-- Embedding of `get_trading_dates` (calendar.py lines 40-50): the
strategy selected by `prefer` runs first and the other one only when the
first returned the empty list. -/
def get_trading_dates (o : TushareOutcome) (price_coll : List Bar) (distinct_ok : Bool)
    (start_date end_date prefer : Str) : List Str :=
  if prefer = str "tushare" then
    let days := tushare_trading_days o
    if days ≠ [] then days else mongo_trading_days price_coll distinct_ok start_date end_date
  else
    let days := mongo_trading_days price_coll distinct_ok start_date end_date
    if days ≠ [] then days else tushare_trading_days o

/- ----------------------------------------------------------------------
Helper lemmas about the store-model building blocks
---------------------------------------------------------------------- -/

theorem sortAscOn_sorted {α β : Type} [LinearOrder β] (k : α → β) (l : List α) :
    (sortAscOn k l).Sorted (fun a b => k a ≤ k b) := by
  haveI : IsTotal α (fun a b => k a ≤ k b) := ⟨fun a b => le_total (k a) (k b)⟩
  haveI : IsTrans α (fun a b => k a ≤ k b) := ⟨fun a b c h1 h2 => le_trans h1 h2⟩
  exact List.sorted_insertionSort _ l

theorem sortDescOn_sorted {α β : Type} [LinearOrder β] (k : α → β) (l : List α) :
    (sortDescOn k l).Sorted (fun a b => k b ≤ k a) := by
  haveI : IsTotal α (fun a b => k b ≤ k a) := ⟨fun a b => le_total (k b) (k a)⟩
  haveI : IsTrans α (fun a b => k b ≤ k a) := ⟨fun a b c h1 h2 => le_trans h2 h1⟩
  exact List.sorted_insertionSort _ l

theorem sortAscOn_perm {α β : Type} [LinearOrder β] (k : α → β) (l : List α) :
    (sortAscOn k l).Perm l := List.perm_insertionSort _ l

theorem sortDescOn_perm {α β : Type} [LinearOrder β] (k : α → β) (l : List α) :
    (sortDescOn k l).Perm l := List.perm_insertionSort _ l

theorem sortAscOn_mem {α β : Type} [LinearOrder β] (k : α → β) (l : List α) (a : α) :
    a ∈ sortAscOn k l ↔ a ∈ l := (sortAscOn_perm k l).mem_iff

theorem sortDescOn_mem {α β : Type} [LinearOrder β] (k : α → β) (l : List α) (a : α) :
    a ∈ sortDescOn k l ↔ a ∈ l := (sortDescOn_perm k l).mem_iff

theorem sortDescOn_eq_of_sorted {α β : Type} [LinearOrder β] {k : α → β} {l : List α}
    (h : l.Sorted (fun a b => k b ≤ k a)) : sortDescOn k l = l :=
  List.Sorted.insertionSort_eq h

theorem sorted_take {α : Type} {r : α → α → Prop} {l : List α} (h : l.Sorted r) (n : Nat) :
    (l.take n).Sorted r := h.sublist (List.take_sublist n l)

theorem sortDescOn_idem {α β : Type} [LinearOrder β] (k : α → β) (l : List α) :
    sortDescOn k (sortDescOn k l) = sortDescOn k l :=
  sortDescOn_eq_of_sorted (sortDescOn_sorted k l)

theorem dictGet_dictSet_self {α : Type} (m : List (Str × α)) (k : Str) (v : α) :
    dictGet (dictSet m (k, v)) k = some v := by
  induction m with
  | nil => simp [dictSet, dictGet]
  | cons kv rest ih =>
    obtain ⟨k0, v0⟩ := kv
    by_cases h : k0 = k
    · subst h
      simp [dictSet, dictGet]
    · simp [dictSet, dictGet, h, ih]

/- ----------------------------------------------------------------------
Claim C6 : store-side and local paths of fetch_docs agree
---------------------------------------------------------------------- -/

/-- The five-document example of the specification: distinct `end_date`
values, in scrambled store order. -/
def finExampleDocs : List FinDoc :=
  [[(str "end_date", str "20220331")], [(str "end_date", str "20220630")],
   [(str "end_date", str "20220930")], [(str "end_date", str "20221231")],
   [(str "end_date", str "20230331")]]

/-- C6: for documents that all carry the sort field, `fetch_docs` with a
non-None `periods` returns the same ordered list whether the store-side
sort-and-limit path succeeds or the local fallback sorts and truncates;
on the five example documents with distinct `end_date` values and
`periods = 2`, both paths return exactly the two documents with the
lexicographically largest `end_date`. -/
theorem fetch_docs_dual_path (matched_docs : List FinDoc) (sort_field : Str) (p : Nat)
    (hwf : ∀ d ∈ matched_docs, (dictGet d sort_field).isSome) :
    fetch_docs matched_docs (some p) sort_field true
      = fetch_docs matched_docs (some p) sort_field false
    ∧ (fetch_docs finExampleDocs (some 2) (str "end_date") true
        = [[(str "end_date", str "20230331")], [(str "end_date", str "20221231")]]
      ∧ fetch_docs finExampleDocs (some 2) (str "end_date") false
        = [[(str "end_date", str "20230331")], [(str "end_date", str "20221231")]]) := by
  refine ⟨?_, by decide, by decide⟩
  unfold fetch_docs mongoLimit
  by_cases hp : p = 0
  · subst hp
    simp [sortDescOn_idem]
  · have h1 : sortDescOn (fin_sort_key sort_field)
        (List.take p (sortDescOn (fin_sort_key sort_field) matched_docs))
        = List.take p (sortDescOn (fin_sort_key sort_field) matched_docs) :=
      sortDescOn_eq_of_sorted (sorted_take (sortDescOn_sorted _ _) p)
    simp [hp, h1, List.take_take]

/-- Concrete instantiation of `fetch_docs_dual_path`. -/
theorem fetch_docs_dual_path_witness :
    fetch_docs finExampleDocs (some 2) (str "end_date") true
      = fetch_docs finExampleDocs (some 2) (str "end_date") false :=
  (fetch_docs_dual_path finExampleDocs (str "end_date") 2 (by decide)).1

/- ----------------------------------------------------------------------
Claim C1 : fetch_latest_close suffix fallback keying
---------------------------------------------------------------------- -/

/-- A store holding the bar only under the stripped symbol form. -/
def latestCloseStore : List Bar :=
  [{ symbol := str "600000", trade_date := str "20230101", close := some 10 }]

/-- C1 counterexample: the store has no bar for the full form
`600000.SH` on the date but has one for the stripped form `600000`, and
`fetch_latest_close` does fall back to the stripped form; yet the
resulting mapping holds the close under the stripped key `600000`, so a
lookup under the original suffixed input `600000.SH` finds nothing. -/
theorem fetch_latest_close_counterexample :
    (∀ b ∈ latestCloseStore,
      ¬(b.symbol = str "600000.SH" ∧ b.trade_date = str "20230101"))
    ∧ (∃ b ∈ latestCloseStore, b.symbol = str "600000"
        ∧ b.trade_date = str "20230101" ∧ b.close = some 10)
    ∧ fetch_latest_close latestCloseStore [str "600000.SH"] (str "20230101")
        = [(str "600000", some 10)]
    ∧ dictGet (fetch_latest_close latestCloseStore [str "600000.SH"] (str "20230101"))
        (str "600000.SH") = none := by decide

/-- C1 amended: for an input symbol of the form base.suffix with no
price bar under its full form on the date, when the store has exactly
one bar under the stripped base form on that date, `fetch_latest_close`
falls back to the stripped form and the resulting mapping holds that
close keyed under the stripped base form, not under the original
suffixed input. -/
theorem fetch_latest_close_fallback (price_coll : List Bar) (s date_str : Str) (b : Bar)
    (hdot : '.' ∈ s)
    (h1 : price_coll.filter (matchesSymbolDate [s] date_str) = [])
    (h2 : price_coll.filter (matchesSymbolDate [stripSuffix s] date_str) = [b]) :
    fetch_latest_close price_coll [s] date_str = [(b.symbol, b.close)]
    ∧ b.symbol = stripSuffix s
    ∧ dictGet (fetch_latest_close price_coll [s] date_str) (stripSuffix s) = some b.close
    ∧ dictGet (fetch_latest_close price_coll [s] date_str) s = none := by
  have hb : b.symbol = stripSuffix s := by
    have hmem : b ∈ price_coll.filter (matchesSymbolDate [stripSuffix s] date_str) := by
      rw [h2]
      exact List.mem_cons_self b []
    have hq := (List.mem_filter.mp hmem).2
    unfold matchesSymbolDate at hq
    simp at hq
    exact hq.1
  have hsne : s ≠ stripSuffix s := by
    intro hcontra
    have hin : '.' ∈ stripSuffix s := hcontra ▸ hdot
    unfold stripSuffix at hin
    have := List.mem_takeWhile_imp hin
    simp at this
  have hres : fetch_latest_close price_coll [s] date_str = [(b.symbol, b.close)] := by
    unfold fetch_latest_close
    rw [h1]
    simp only [List.map_nil, dictSetAll, List.foldl_nil]
    simp [hdot]
    rw [h2]
    simp [dictSet]
  refine ⟨hres, hb, ?_, ?_⟩
  · rw [hres, hb]
    simp [dictGet]
  · rw [hres]
    simp [dictGet, hb, hsne.symm]

/-- Concrete instantiation of `fetch_latest_close_fallback` at the
example store. -/
theorem fetch_latest_close_fallback_witness :
    fetch_latest_close latestCloseStore [str "600000.SH"] (str "20230101")
      = [(str "600000", some 10)] := by
  have h := (fetch_latest_close_fallback latestCloseStore (str "600000.SH")
    (str "20230101")
    { symbol := str "600000", trade_date := str "20230101", close := some 10 }
    (by decide) (by decide) (by decide)).1
  simpa using h

/- ----------------------------------------------------------------------
Claim C3 : select_top_symbols ordering, eligibility and truncation
---------------------------------------------------------------------- -/

/-- The four-candidate example of the specification: scores A:5, B:9,
C:7, D:9 on one date under the scalar dimension `quality`. -/
def scoreExampleColl : List ScoreRec :=
  [{ symbol := str "A", score_date := str "20230101", fields := [(str "quality_score", 5)] },
   { symbol := str "B", score_date := str "20230101", fields := [(str "quality_score", 9)] },
   { symbol := str "C", score_date := str "20230101", fields := [(str "quality_score", 7)] },
   { symbol := str "D", score_date := str "20230101", fields := [(str "quality_score", 9)] }]

theorem mongoLimit_sublist {α : Type} (p : Nat) (l : List α) : (mongoLimit p l).Sublist l := by
  unfold mongoLimit
  split
  · exact List.Sublist.refl l
  · exact List.take_sublist _ _

/-- C3 counterexample: the store cursor limit at score.py line 42 treats
a `top_n` of 0 as no limit at all, so on the example collection the
program returns all four eligible symbols — more than `top_n`, refuting
the at-most-`top_n` bound the claim asserts for every `top_n`. -/
theorem select_top_symbols_counterexample :
    select_top_symbols scoreExampleColl (str "20230101") (str "quality") 0 false
      = [str "B", str "D", str "C", str "A"]
    ∧ ¬ (select_top_symbols scoreExampleColl (str "20230101") (str "quality") 0 false).length
        ≤ 0 := by decide

/-- C3 amended: for every positive `top_n`, `select_top_symbols` draws
only from records on the used date whose sort field exists, returns at
most `top_n` symbols, and lists them in weakly decreasing score order,
so a strictly higher score always precedes a strictly lower one (at
`top_n = 0` the store limit is no limit and every eligible symbol is
returned instead); on the example scores A:5, B:9, C:7, D:9 with
`top_n = 3` it returns three symbols, the 9-tie first in store order,
then C, and A is cut. -/
theorem select_top_symbols_spec (scores_coll : List ScoreRec) (score_date dimension : Str)
    (top_n : Nat) (auto_resolve_date : Bool) (htop : top_n ≠ 0) :
    (select_top_symbols scores_coll score_date dimension top_n auto_resolve_date
        = (top_score_docs scores_coll
            (if auto_resolve_date then resolve_nearest_score_date scores_coll score_date
              else score_date) dimension top_n).map (fun r => r.symbol))
    ∧ (select_top_symbols scores_coll score_date dimension top_n auto_resolve_date).length
        ≤ top_n
    ∧ (∀ used_date : Str, ∀ r ∈ top_score_docs scores_coll used_date dimension top_n,
        r ∈ scores_coll ∧ r.score_date = used_date
          ∧ (fieldGet r (score_sort_field dimension)).isSome)
    ∧ (∀ used_date : Str,
        (top_score_docs scores_coll used_date dimension top_n).Pairwise
          (fun a b => (fieldGet b (score_sort_field dimension)).getD 0
            ≤ (fieldGet a (score_sort_field dimension)).getD 0))
    ∧ select_top_symbols scoreExampleColl (str "20230101") (str "quality") 3 false
        = [str "B", str "D", str "C"] := by
  refine ⟨rfl, ?_, ?_, ?_, by decide⟩
  · unfold select_top_symbols top_score_docs mongoLimit
    simp only [if_neg htop, List.length_map]
    exact List.length_take_le _ _
  · intro used_date r hr
    unfold top_score_docs at hr
    have hr2 := (sortDescOn_mem _ _ r).mp ((mongoLimit_sublist _ _).mem hr)
    have hr3 := List.mem_filter.mp hr2
    refine ⟨hr3.1, ?_, ?_⟩
    · have := hr3.2
      simp at this
      exact this.1
    · have := hr3.2
      simp at this
      exact this.2
  · intro used_date
    unfold top_score_docs
    exact (sortDescOn_sorted _ _).sublist (mongoLimit_sublist _ _)

/-- Concrete instantiation of `select_top_symbols_spec` at the example
collection with `top_n = 3`. -/
theorem select_top_symbols_spec_witness :
    select_top_symbols scoreExampleColl (str "20230101") (str "quality") 3 false
      = [str "B", str "D", str "C"] :=
  (select_top_symbols_spec scoreExampleColl (str "20230101") (str "quality") 3 false
    (by decide)).2.2.2.2

/- ----------------------------------------------------------------------
Claim C5 : fetch_batch row membership, order and uniqueness
---------------------------------------------------------------------- -/

theorem pairwise_of_perm {α : Type} {R : α → α → Prop} (hs : ∀ a b, R a b → R b a)
    {l m : List α} (h : l.Perm m) (hp : l.Pairwise R) : m.Pairwise R :=
  (h.pairwise_iff fun hab => hs _ _ hab).mp hp

/-- Distinct keys of the price collection: no two documents share both
symbol and trade date. -/
def BarKeyUnique (price_coll : List Bar) : Prop :=
  price_coll.Pairwise (fun a b => ¬(a.symbol = b.symbol ∧ a.trade_date = b.trade_date))

/-- C5: every per-symbol table of `fetch_batch` holds only rows of the
store for that symbol with trade date within the requested range, its
dates are sorted ascending, and under key uniqueness of the store no
date repeats within a table. -/
theorem fetch_batch_spec (price_coll : List Bar) (symbols : List Str)
    (start_date end_date : Str) (hsym : symbols ≠ [])
    (huniq : BarKeyUnique price_coll) :
    ∀ p ∈ fetch_batch price_coll symbols start_date end_date,
      (∀ r ∈ p.2, r ∈ price_coll ∧ r.symbol = p.1 ∧ r.symbol ∈ symbols
        ∧ start_date ≤ r.trade_date ∧ r.trade_date ≤ end_date)
      ∧ (p.2.map (fun r => r.trade_date)).Sorted (fun a b => a ≤ b)
      ∧ (p.2.map (fun r => r.trade_date)).Nodup := by
  intro p hp
  unfold fetch_batch at hp
  rw [if_neg hsym] at hp
  obtain ⟨sym, hsymm, hpe⟩ := List.mem_map.mp hp
  subst hpe
  set filtered := price_coll.filter (matchesBatchQuery symbols start_date end_date) with hfe
  set docs := sortAscOn (fun b => b.symbol) (sortAscOn (fun b => b.trade_date) filtered)
    with hde
  set rows := sortAscOn (fun b => b.trade_date) (docs.filter (fun b => decide (b.symbol = sym)))
    with hre
  have hrow_mem : ∀ r ∈ rows, r ∈ price_coll ∧ r.symbol = sym
      ∧ r.symbol ∈ symbols ∧ start_date ≤ r.trade_date ∧ r.trade_date ≤ end_date := by
    intro r hr
    have hr1 := List.mem_filter.mp ((sortAscOn_mem _ _ r).mp hr)
    have hr2 : r ∈ filtered :=
      (sortAscOn_mem _ _ r).mp ((sortAscOn_mem _ _ r).mp hr1.1)
    have hr3 := List.mem_filter.mp hr2
    have hq := hr3.2
    unfold matchesBatchQuery at hq
    simp at hq
    exact ⟨hr3.1, by simpa using hr1.2, hq.1.1, hq.1.2, hq.2⟩
  refine ⟨hrow_mem, ?_, ?_⟩
  · show (rows.map (fun r => r.trade_date)).Sorted (fun a b => a ≤ b)
    rw [hre]
    have hs := sortAscOn_sorted (fun b : Bar => b.trade_date)
      (docs.filter (fun b => decide (b.symbol = sym)))
    exact (List.pairwise_map).mpr hs
  · show (rows.map (fun r => r.trade_date)).Nodup
    have hRsymm : ∀ a b : Bar, ¬(a.symbol = b.symbol ∧ a.trade_date = b.trade_date) →
        ¬(b.symbol = a.symbol ∧ b.trade_date = a.trade_date) :=
      fun a b h hc => h ⟨hc.1.symm, hc.2.symm⟩
    have h1 : filtered.Pairwise
        (fun a b => ¬(a.symbol = b.symbol ∧ a.trade_date = b.trade_date)) :=
      huniq.sublist (List.filter_sublist price_coll)
    have h2 : docs.Pairwise
        (fun a b => ¬(a.symbol = b.symbol ∧ a.trade_date = b.trade_date)) :=
      pairwise_of_perm hRsymm (sortAscOn_perm _ _).symm
        (pairwise_of_perm hRsymm (sortAscOn_perm _ _).symm h1)
    have h3 : rows.Pairwise
        (fun a b => ¬(a.symbol = b.symbol ∧ a.trade_date = b.trade_date)) :=
      pairwise_of_perm hRsymm (sortAscOn_perm _ _).symm
        (h2.sublist (List.filter_sublist docs))
    have h4 : rows.Pairwise (fun a b => a.trade_date ≠ b.trade_date) := by
      refine h3.imp_of_mem ?_
      intro a b ha hb hR hd
      exact hR ⟨(hrow_mem a ha).2.1.trans ((hrow_mem b hb).2.1).symm, hd⟩
    exact List.Pairwise.map _ (fun a b h => h) h4

/-- Example bars for the batch fetch, stored out of date order. -/
def barJan1 : Bar := { symbol := str "600000.SH", trade_date := str "20230101", close := some 10 }

/-- Second example bar, one day later. -/
def barJan2 : Bar := { symbol := str "600000.SH", trade_date := str "20230102", close := some 11 }

/-- A two-bar store in reverse chronological order. -/
def batchExampleStore : List Bar := [barJan2, barJan1]

/-- Concrete instantiation of `fetch_batch_spec`: the single per-symbol
table of the example store. -/
theorem fetch_batch_spec_witness :
    (∀ r ∈ (str "600000.SH", [barJan1, barJan2]).2,
        r ∈ batchExampleStore ∧ r.symbol = (str "600000.SH", [barJan1, barJan2]).1
          ∧ r.symbol ∈ [str "600000.SH"] ∧ str "20230101" ≤ r.trade_date
          ∧ r.trade_date ≤ str "20230131")
    ∧ (((str "600000.SH", [barJan1, barJan2]).2.map (fun r => r.trade_date)).Sorted
        (fun a b => a ≤ b))
    ∧ ((str "600000.SH", [barJan1, barJan2]).2.map (fun r => r.trade_date)).Nodup :=
  fetch_batch_spec batchExampleStore [str "600000.SH"] (str "20230101") (str "20230131")
    (by decide) (by unfold BarKeyUnique; decide) (str "600000.SH", [barJan1, barJan2])
    (by decide)

/- ----------------------------------------------------------------------
Claim C10 : periods equal to zero skips truncation
---------------------------------------------------------------------- -/

/-- C10: `fetch_docs` with `periods = 0` returns every matching document
sorted descending by the sort field, the same result as `periods = None`,
not an empty list, on either path (a Mongo limit of 0 means no limit, and
0 is falsy in the final Python truncation guard). -/
theorem fetch_docs_periods_zero (matched_docs : List FinDoc) (sort_field : Str)
    (store_side_ok : Bool) :
    fetch_docs matched_docs (some 0) sort_field store_side_ok
      = sortDescOn (fin_sort_key sort_field) matched_docs
    ∧ fetch_docs matched_docs (some 0) sort_field store_side_ok
      = fetch_docs matched_docs none sort_field store_side_ok := by
  unfold fetch_docs mongoLimit
  cases store_side_ok <;> simp [sortDescOn_idem]

/- ----------------------------------------------------------------------
Claim C8 : resolve_ts_code is idempotent
---------------------------------------------------------------------- -/

/-- C8: when a `resolve_ts_code` call resolves a symbol successfully (a
truthy resolved value), calling it again on the resulting state returns
the same value from the cache, leaves the state unchanged and issues no
further query against the info collection. -/
theorem resolve_ts_code_idempotent (a : PriceAccessState) (symbol v : Str)
    (h1 : (resolve_ts_code a symbol).value = some v) (h2 : v ≠ []) :
    resolve_ts_code (resolve_ts_code a symbol).state symbol
      = ⟨some v, (resolve_ts_code a symbol).state, 0⟩ := by
  unfold resolve_ts_code at h1 ⊢
  cases hc : dictGet a.sym_ts_cache symbol with
  | some w =>
    simp only [hc] at h1 ⊢
    cases h1
    rfl
  | none =>
    cases hf : a.info_coll.find? (fun d => decide (d.symbol = symbol)) with
    | none => simp [hc, hf] at h1
    | some d =>
      by_cases hd : d.symbol = []
      · simp [hc, hf, hd] at h1
        exact absurd (h1 ▸ hd) (by simpa [h1] using h2)
      · simp only [hc, hf, ne_eq, hd, not_false_iff, if_pos] at h1 ⊢
        cases h1
        simp [dictGet_dictSet_self]

/-- Concrete instantiation of `resolve_ts_code_idempotent`: a fresh
access object over a one-document info collection. -/
theorem resolve_ts_code_idempotent_witness :
    resolve_ts_code
        (resolve_ts_code ⟨[⟨str "600000.SH", str "PF Bank"⟩], []⟩ (str "600000.SH")).state
        (str "600000.SH")
      = ⟨some (str "600000.SH"),
          (resolve_ts_code ⟨[⟨str "600000.SH", str "PF Bank"⟩], []⟩ (str "600000.SH")).state,
          0⟩ :=
  resolve_ts_code_idempotent ⟨[⟨str "600000.SH", str "PF Bank"⟩], []⟩ (str "600000.SH")
    (str "600000.SH") (by decide) (by decide)

/- ----------------------------------------------------------------------
Claim C9 : extract_email field priority
---------------------------------------------------------------------- -/

/-- A user document whose email field is present but empty. -/
def emailExampleDoc : UserDoc := [(str "email", str ""), (str "mail", str "x@y.com")]

/-- C9 counterexample: on a document whose highest-priority field email
is present with an empty-string value, `extract_email` does not return
that value; the Python or-chain skips falsy values and returns the mail
field instead. -/
theorem extract_email_counterexample :
    dictGet emailExampleDoc (str "email") = some []
    ∧ extract_email emailExampleDoc = some (str "x@y.com")
    ∧ extract_email emailExampleDoc ≠ some [] := by decide

/-- C9 amended: `extract_email` returns the value of the first field in
the priority order email, mail, contact_email that is present with a
non-empty value; a higher-priority field that is absent or holds the
empty string is skipped; when neither email nor mail is present with a
non-empty value, the result is exactly the contact_email lookup (absent
when that field is absent). -/
theorem extract_email_priority (d : UserDoc) :
    (∀ v, dictGet d (str "email") = some v → v ≠ [] → extract_email d = some v)
    ∧ ((dictGet d (str "email") = none ∨ dictGet d (str "email") = some []) →
        ∀ v, dictGet d (str "mail") = some v → v ≠ [] → extract_email d = some v)
    ∧ ((dictGet d (str "email") = none ∨ dictGet d (str "email") = some []) →
        (dictGet d (str "mail") = none ∨ dictGet d (str "mail") = some []) →
        extract_email d = dictGet d (str "contact_email")) := by
  unfold extract_email
  refine ⟨?_, ?_, ?_⟩
  · intro v hv hne
    simp [py_or, hv, hne]
  · rintro (h | h) v hv hne <;> simp [py_or, h, hv, hne]
  · rintro (h1 | h1) (h2 | h2) <;> simp [py_or, h1, h2]

/-- Concrete instantiation of `extract_email_priority`: a document with
only a mail field. -/
theorem extract_email_priority_witness :
    extract_email [(str "mail", str "a@b.cn")] = some (str "a@b.cn") :=
  (extract_email_priority [(str "mail", str "a@b.cn")]).2.1 (Or.inl (by decide))
    (str "a@b.cn") (by decide) (by decide)

/- ----------------------------------------------------------------------
Claim C2 : nearest score date resolution
---------------------------------------------------------------------- -/

theorem sortDescOn_head_max {α β : Type} [LinearOrder β] {k : α → β} {l : List α}
    {x : α} {rest : List α} (h : sortDescOn k l = x :: rest) :
    x ∈ l ∧ ∀ y ∈ l, k y ≤ k x := by
  constructor
  · exact (sortDescOn_mem k l x).mp (h ▸ List.mem_cons_self x rest)
  · intro y hy
    have hy2 : y ∈ x :: rest := h ▸ (sortDescOn_mem k l y).mpr hy
    rcases List.mem_cons.mp hy2 with h1 | h1
    · subst h1; exact le_refl _
    · have hs := sortDescOn_sorted k l
      rw [h] at hs
      exact List.rel_of_sorted_cons hs y h1

/-- The score-date example of the specification: records on
20230101, 20230103 and 20230105. -/
def scoreDatesExample : List ScoreRec :=
  [{ symbol := str "A", score_date := str "20230101" },
   { symbol := str "A", score_date := str "20230103" },
   { symbol := str "A", score_date := str "20230105" }]

/-- C2: `_resolve_nearest_score_date` returns the requested date on an
exact match; otherwise the latest available score date not after the
request; otherwise, when no score date is at or before the request, the
globally latest score date; and the request unchanged on an empty
collection.  With records on 20230101, 20230103 and 20230105, a query of
20230104 resolves to 20230103 and a query of 20230106 to 20230105. -/
theorem resolve_nearest_score_date_spec (scores_coll : List ScoreRec) (d : Str) :
    ((∃ r ∈ scores_coll, r.score_date = d) → resolve_nearest_score_date scores_coll d = d)
    ∧ ((¬ ∃ r ∈ scores_coll, r.score_date = d) → (∃ r ∈ scores_coll, r.score_date ≤ d) →
        (∃ r ∈ scores_coll, r.score_date = resolve_nearest_score_date scores_coll d)
        ∧ resolve_nearest_score_date scores_coll d ≤ d
        ∧ ∀ r ∈ scores_coll, r.score_date ≤ d →
            r.score_date ≤ resolve_nearest_score_date scores_coll d)
    ∧ ((¬ ∃ r ∈ scores_coll, r.score_date ≤ d) → scores_coll ≠ [] →
        (∃ r ∈ scores_coll, r.score_date = resolve_nearest_score_date scores_coll d)
        ∧ ∀ r ∈ scores_coll, r.score_date ≤ resolve_nearest_score_date scores_coll d)
    ∧ (scores_coll = [] → resolve_nearest_score_date scores_coll d = d)
    ∧ resolve_nearest_score_date scoreDatesExample (str "20230104") = str "20230103"
    ∧ resolve_nearest_score_date scoreDatesExample (str "20230106") = str "20230105"
    ∧ resolve_nearest_score_date ([] : List ScoreRec) (str "20230104") = str "20230104" := by
  refine ⟨?_, ?_, ?_, ?_, by decide, by decide, by decide⟩
  · rintro ⟨r, hr, hrd⟩
    have hs : (scores_coll.find? (fun r => decide (r.score_date = d))).isSome := by
      rw [List.find?_isSome]
      exact ⟨r, hr, by simpa using hrd⟩
    unfold resolve_nearest_score_date
    rw [if_pos hs]
  · intro hne hex
    have hf : scores_coll.find? (fun r => decide (r.score_date = d)) = none := by
      rw [List.find?_eq_none]
      intro x hx
      simpa using fun h => hne ⟨x, hx, h⟩
    obtain ⟨r0, hr0, hr0le⟩ := hex
    have hr0f : r0 ∈ scores_coll.filter (fun r => decide (r.score_date ≤ d)) :=
      List.mem_filter.mpr ⟨hr0, by simpa using hr0le⟩
    cases hsd : sortDescOn (fun r => r.score_date)
        (scores_coll.filter (fun r => decide (r.score_date ≤ d))) with
    | nil =>
      rw [← sortDescOn_mem (fun r => r.score_date)] at hr0f
      rw [hsd] at hr0f
      cases hr0f
    | cons x rest =>
      have hmax := sortDescOn_head_max hsd
      have hxc := List.mem_filter.mp hmax.1
      have hxd : x.score_date ≤ d := by simpa using hxc.2
      have hres : resolve_nearest_score_date scores_coll d = x.score_date := by
        unfold resolve_nearest_score_date
        rw [if_neg (by simp [hf]), hsd]
        simp
      refine ⟨⟨x, hxc.1, hres.symm⟩, hres ▸ hxd, ?_⟩
      intro r hr hrd
      rw [hres]
      exact hmax.2 r (List.mem_filter.mpr ⟨hr, by simpa using hrd⟩)
  · intro hne hcoll
    have hf : scores_coll.find? (fun r => decide (r.score_date = d)) = none := by
      rw [List.find?_eq_none]
      intro x hx
      simpa using fun h => hne ⟨x, hx, le_of_eq h⟩
    have hfl : scores_coll.filter (fun r => decide (r.score_date ≤ d)) = [] := by
      rw [List.filter_eq_nil_iff]
      intro x hx
      simpa using fun h => hne ⟨x, hx, h⟩
    cases hsd : sortDescOn (fun r => r.score_date) scores_coll with
    | nil =>
      have hnil : scores_coll = [] := by
        have hp := sortDescOn_perm (fun r => r.score_date) scores_coll
        rw [hsd] at hp
        exact hp.symm.eq_nil
      exact absurd hnil hcoll
    | cons x rest =>
      have hmax := sortDescOn_head_max hsd
      have hsd2 : List.insertionSort (fun a b => b.score_date ≤ a.score_date) scores_coll
          = x :: rest := hsd
      have hres : resolve_nearest_score_date scores_coll d = x.score_date := by
        unfold resolve_nearest_score_date
        rw [if_neg (by simp [hf]), hfl]
        simp [sortDescOn, hsd2]
      exact ⟨⟨x, hmax.1, hres.symm⟩, fun r hr => hres ▸ hmax.2 r hr⟩
  · intro h
    subst h
    rfl

/-- Concrete instantiation of `resolve_nearest_score_date_spec`: the
nearest-at-or-before branch at the example collection. -/
theorem resolve_nearest_score_date_spec_witness :
    (∃ r ∈ scoreDatesExample,
        r.score_date = resolve_nearest_score_date scoreDatesExample (str "20230104"))
    ∧ resolve_nearest_score_date scoreDatesExample (str "20230104") ≤ str "20230104"
    ∧ ∀ r ∈ scoreDatesExample, r.score_date ≤ str "20230104" →
        r.score_date ≤ resolve_nearest_score_date scoreDatesExample (str "20230104") :=
  (resolve_nearest_score_date_spec scoreDatesExample (str "20230104")).2.1
    (by decide) (by decide)

/- ----------------------------------------------------------------------
Claim C7 : trading-calendar strategy selection and error swallowing
---------------------------------------------------------------------- -/

theorem tushare_trading_days_sorted (o : TushareOutcome) :
    (tushare_trading_days o).Sorted (fun a b => a ≤ b) := by
  cases o with
  | unavailable => exact List.sorted_nil
  | error => exact List.sorted_nil
  | emptyFrame => exact List.sorted_nil
  | ok days => exact sortAscOn_sorted id days

theorem mongo_trading_days_sorted (price_coll : List Bar) (distinct_ok : Bool)
    (start_date end_date : Str) :
    (mongo_trading_days price_coll distinct_ok start_date end_date).Sorted
      (fun a b => a ≤ b) := by
  unfold mongo_trading_days
  cases distinct_ok <;> simp only [Bool.false_eq_true, if_true, if_false] <;>
    exact sortAscOn_sorted id _

/-- C7: `get_trading_dates` tries the strategy selected by `prefer`
first and consults the other only when the first returned no dates; an
error, a missing provider module or token and an empty provider frame
all become the empty tushare result, so they trigger the fallback and
never escape; and the returned list is sorted whatever happened. -/
theorem get_trading_dates_spec (o : TushareOutcome) (price_coll : List Bar)
    (distinct_ok : Bool) (start_date end_date prefer : Str) :
    (get_trading_dates o price_coll distinct_ok start_date end_date prefer).Sorted
      (fun a b => a ≤ b)
    ∧ (prefer = str "tushare" →
        (tushare_trading_days o ≠ [] →
          get_trading_dates o price_coll distinct_ok start_date end_date prefer
            = tushare_trading_days o)
        ∧ (tushare_trading_days o = [] →
          get_trading_dates o price_coll distinct_ok start_date end_date prefer
            = mongo_trading_days price_coll distinct_ok start_date end_date))
    ∧ (prefer ≠ str "tushare" →
        (mongo_trading_days price_coll distinct_ok start_date end_date ≠ [] →
          get_trading_dates o price_coll distinct_ok start_date end_date prefer
            = mongo_trading_days price_coll distinct_ok start_date end_date)
        ∧ (mongo_trading_days price_coll distinct_ok start_date end_date = [] →
          get_trading_dates o price_coll distinct_ok start_date end_date prefer
            = tushare_trading_days o))
    ∧ tushare_trading_days .error = []
    ∧ tushare_trading_days .unavailable = []
    ∧ get_trading_dates .error price_coll distinct_ok start_date end_date (str "tushare")
        = mongo_trading_days price_coll distinct_ok start_date end_date := by
  refine ⟨?_, fun hp => ⟨fun hne => ?_, fun hemp => ?_⟩,
    fun hp => ⟨fun hne => ?_, fun hemp => ?_⟩, rfl, rfl, ?_⟩
  · unfold get_trading_dates
    by_cases h1 : prefer = str "tushare" <;>
      by_cases h2 : tushare_trading_days o = [] <;>
      by_cases h3 : mongo_trading_days price_coll distinct_ok start_date end_date = [] <;>
      simp only [h1, h2, h3, if_true, if_false, ne_eq, not_true, not_false_iff, ite_true,
        ite_false, ite_self] <;>
      first
        | exact List.sorted_nil
        | exact tushare_trading_days_sorted o
        | exact mongo_trading_days_sorted price_coll distinct_ok start_date end_date
  · simp [get_trading_dates, hp, hne]
  · simp [get_trading_dates, hp, hemp]
  · simp [get_trading_dates, hp, hne]
  · simp [get_trading_dates, hp, hemp]
  · simp [get_trading_dates, tushare_trading_days]

/-- Concrete instantiation of `get_trading_dates_spec`: a provider
success is used as is, without consulting the store. -/
theorem get_trading_dates_spec_witness :
    get_trading_dates (.ok [str "20230103", str "20230101"]) [] true
        (str "20230101") (str "20231231") (str "tushare")
      = tushare_trading_days (.ok [str "20230103", str "20230101"]) :=
  ((get_trading_dates_spec (.ok [str "20230103", str "20230101"]) [] true
      (str "20230101") (str "20231231") (str "tushare")).2.1 rfl).1 (by decide)

/- ----------------------------------------------------------------------
Claim C4 : load_normalized rebasing
---------------------------------------------------------------------- -/

/-- An index store whose first close in range is a stored null and whose
second is numeric: pandas coerces the column to float, the null first
value becomes NaN, and the None/zero guard misses it. -/
def nullFirstIndexExample : List IndexBar :=
  [{ ts_code := str "000300.SH", trade_date := str "20230101", close := none },
   { ts_code := str "000300.SH", trade_date := str "20230102", close := some 6 }]

/-- C4 counterexample: with a null first close followed by a numeric
one, the fetched raw series is non-empty and its first value is absent,
yet `load_normalized` does not return the empty series: the null is
coerced to NaN, `base in (None, 0)` is false, and the division by NaN
yields a non-empty series whose every observation is missing. -/
theorem load_normalized_counterexample :
    index_source_docs nullFirstIndexExample [] (str "000300.SH") (str "20230101")
        (str "20230103")
      = [(str "20230101", none), (str "20230102", some 6)]
    ∧ load_normalized nullFirstIndexExample [] (str "000300.SH") (str "20230101")
        (str "20230103")
      = [(str "20230101", none), (str "20230102", none)]
    ∧ load_normalized nullFirstIndexExample [] (str "000300.SH") (str "20230101")
        (str "20230103") ≠ [] := by decide

/-- C4 amended: `load_normalized` returns the empty series when the
fetched raw series is empty, when its first value is zero, or when every
value is a stored null (the column keeps object dtype and the guard
catches the None first value); when the first value is a stored null but
some later value is numeric, the null is coerced to NaN, the guard
misses it, and the result is a NON-empty series of the same dates with
every observation missing; when the first value is numeric and nonzero,
every close is divided by it and the first observation of the result is
exactly 1. -/
theorem load_normalized_spec (index_coll : List IndexBar) (stock_coll : List Bar)
    (ts_code start_date end_date : Str) :
    (index_source_docs index_coll stock_coll ts_code start_date end_date = [] →
      load_normalized index_coll stock_coll ts_code start_date end_date = [])
    ∧ ((index_source_docs index_coll stock_coll ts_code start_date end_date).all
          (fun p => p.2.isNone) = true →
      load_normalized index_coll stock_coll ts_code start_date end_date = [])
    ∧ (∀ d0 rest, index_source_docs index_coll stock_coll ts_code start_date end_date
        = (d0, some 0) :: rest →
      load_normalized index_coll stock_coll ts_code start_date end_date = [])
    ∧ (∀ d0 rest, index_source_docs index_coll stock_coll ts_code start_date end_date
        = (d0, (none : Option ℚ)) :: rest →
      ((d0, (none : Option ℚ)) :: rest).all (fun p => p.2.isNone) = false →
      load_normalized index_coll stock_coll ts_code start_date end_date
          = ((d0, (none : Option ℚ)) :: rest).map (fun p => (p.1, (none : Option ℚ)))
        ∧ load_normalized index_coll stock_coll ts_code start_date end_date ≠ [])
    ∧ (∀ d0 base rest, index_source_docs index_coll stock_coll ts_code start_date end_date
        = (d0, some base) :: rest → base ≠ 0 →
      load_normalized index_coll stock_coll ts_code start_date end_date
          = ((d0, some base) :: rest).map (fun p => (p.1, p.2.map (fun c => c / base)))
        ∧ (load_normalized index_coll stock_coll ts_code start_date end_date).head?
            = some (d0, some 1)) := by
  refine ⟨fun h => ?_, fun h2 => ?_, fun d0 rest h => ?_,
    fun d0 rest h h2 => ⟨?_, ?_⟩, fun d0 base rest h hb => ⟨?_, ?_⟩⟩
  · unfold load_normalized
    rw [h]
  · unfold load_normalized
    cases heq : index_source_docs index_coll stock_coll ts_code start_date end_date with
    | nil => rfl
    | cons hd tl =>
      rw [heq] at h2
      simp [h2]
  · unfold load_normalized
    rw [h]
    simp
  · unfold load_normalized
    rw [h]
    simp [h2]
  · unfold load_normalized
    rw [h]
    simp [h2]
  · unfold load_normalized
    rw [h]
    simp [hb]
  · unfold load_normalized
    rw [h]
    simp [hb, div_self hb]

/-- The index example: two close observations, 4 then 6. -/
def indexExample : List IndexBar :=
  [{ ts_code := str "000300.SH", trade_date := str "20230101", close := some 4 },
   { ts_code := str "000300.SH", trade_date := str "20230102", close := some 6 }]

/-- Concrete instantiation of `load_normalized_spec`: the rebased series
of the example starts at 1. -/
theorem load_normalized_spec_witness :
    (load_normalized indexExample [] (str "000300.SH") (str "20230101") (str "20230103")).head?
      = some (str "20230101", some 1) :=
  ((load_normalized_spec indexExample [] (str "000300.SH") (str "20230101")
      (str "20230103")).2.2.2.2 (str "20230101") 4
      [(str "20230102", some 6)] (by decide) (by decide)).2
